import Mathlib

/-!
Verification of the mutual-information estimator subsystem
(`src/modules/agents/mi_estimators.py`).

The estimators operate on dense batches of real vectors.  A batch of `nb`
rows of width `d` is embedded as a function `Fin nb → Fin d → ℝ`; a boolean
mask over the batch is `Fin nb → Bool`.  Feed-forward networks are embedded
as explicit weight/bias data with their application functions.  Tensor means
over a possibly empty selection of rows are embedded as `Option ℝ`, with
`none` standing for the IEEE NaN that `torch.mean` produces on an empty
tensor.  The random permutation drawn by `torch.randperm` inside the sampled
estimators is passed in as an explicit argument (a list of natural numbers),
so that every definition is a pure function of its inputs.
-/

noncomputable section

/-- Elementwise ReLU, `torch.nn.ReLU`. -/
def relu (r : ℝ) : ℝ := max r 0

/-- `torch.nn.functional.softplus` with default parameters:
`softplus x = log (1 + exp x)`. -/
def softplus (r : ℝ) : ℝ := Real.log (1 + Real.exp r)

/-- `torch.nn.LeakyReLU` with the default negative slope `0.01`:
for `r < 0` the value is `r / 100`, otherwise `r`. -/
def leaky_relu (r : ℝ) : ℝ := max r (r / 100)

/-- Mean of the entries of a vector indexed by `Fin n`
(`torch.mean` over a dimension of known positive size). -/
def meanFin {n : ℕ} (v : Fin n → ℝ) : ℝ := (∑ i, v i) / n

/-- `torch.mean` over a list of scalars.  The mean of an empty tensor is NaN
in PyTorch; this is represented by `none`. -/
def meanO (l : List ℝ) : Option ℝ :=
  if l.isEmpty then none else some (l.sum / l.length)

/-- A fully connected layer `torch.nn.Linear(din, dout)`:
weight matrix and bias. -/
structure Linear (dout din : ℕ) where
  w : Fin dout → Fin din → ℝ
  b : Fin dout → ℝ

/-- Application of a linear layer to an input vector. -/
def Linear.run {dout din : ℕ} (L : Linear dout din) (v : Fin din → ℝ) :
    Fin dout → ℝ :=
  fun i => (∑ j, L.w i j * v j) + L.b i

/-- A two-layer perceptron `Sequential(Linear(din, hid), ReLU(),
Linear(hid, dout))`, the shape shared by all approximator networks of the
module. -/
structure MLP2 (din hid dout : ℕ) where
  l1 : Linear hid din
  l2 : Linear dout hid

/-- Application of the two-layer perceptron: second layer after ReLU after
first layer. -/
def MLP2.run {din hid dout : ℕ} (m : MLP2 din hid dout) (v : Fin din → ℝ) :
    Fin dout → ℝ :=
  m.l2.run (fun i => relu (m.l1.run v i))

/-- Application of a two-layer perceptron whose `Sequential` ends in a
`Tanh()` head, as in every `p_logvar` network of the module. -/
def MLP2.runTanh {din hid dout : ℕ} (m : MLP2 din hid dout) (v : Fin din → ℝ) :
    Fin dout → ℝ :=
  fun i => Real.tanh (m.run v i)

/-- `mask.reshape(-1).nonzero(as_tuple=True)[0]` : the list of indices of the
rows selected by the mask, in increasing order. -/
def maskIdx {n : ℕ} (mask : Fin n → Bool) : List (Fin n) :=
  (List.finRange n).filter (fun i => mask i)

/-- `mask_idx[torch.randperm(mask_idx.shape[0]).long()]` : the mask-selected
indices reordered by the drawn permutation `perm` (the draw is an explicit
argument; entries of `perm` index into `maskIdx mask`). -/
def randomIndex {n : ℕ} (mask : Fin n → Bool) (perm : List ℕ) : List (Fin n) :=
  perm.filterMap (fun j => (maskIdx mask).get? j)

/-- `logsumexp` over a vector of reals, as computed (exactly, over the reals)
by `torch.logsumexp` and by the module's stabilized `log_sum_exp`. -/
def logsumexpFin {m : ℕ} (v : Fin m → ℝ) : ℝ :=
  Real.log (∑ j, Real.exp (v j))

/-- Configuration flags read by the sampled estimators
(`args.soft_plus`, `args.random_is_x`). -/
structure Args where
  soft_plus : Bool
  random_is_x : Bool

/-- The non-trainable buffer `max_logvar = ones(1, y_dim) / 2`. -/
def max_logvar (yd : ℕ) : Fin yd → ℝ := fun _ => 1 / 2

/-- The non-trainable buffer `min_logvar = -ones(1, y_dim) * 10`. -/
def min_logvar (yd : ℕ) : Fin yd → ℝ := fun _ => -10

/-! ## CLUB (plain, full-pairwise) -/

/-- The `CLUB` estimator: approximator networks `p_mu` and `p_logvar`, each a
two-layer perceptron with hidden width `hidden_size // 2` (`p_logvar` with a
`Tanh` head). -/
structure CLUB (xd yd hidden_size : ℕ) where
  p_mu : MLP2 xd (hidden_size / 2) yd
  p_logvar : MLP2 xd (hidden_size / 2) yd

/-- `CLUB.get_mu_logvar` : mean and (tanh-bounded) log-variance of the
approximate conditional distribution at one input row. -/
def CLUB.get_mu_logvar {xd yd h : ℕ} (c : CLUB xd yd h) (v : Fin xd → ℝ) :
    (Fin yd → ℝ) × (Fin yd → ℝ) :=
  (c.p_mu.run v, c.p_logvar.runTanh v)

/-- `CLUB.forward` : the full-pairwise CLUB bound,
`mean_i (positive_i.sum - negative_i.sum)` with
`positive = -(mu - y)^2 / 2 / exp(logvar)` and
`negative_i = -(mean_j (y_j - mu_i)^2) / 2 / exp(logvar_i)`. -/
def CLUB.forward {xd yd h nb : ℕ} (c : CLUB xd yd h)
    (x : Fin nb → Fin xd → ℝ) (y : Fin nb → Fin yd → ℝ) : ℝ :=
  meanFin (fun i =>
    let ml := c.get_mu_logvar (x i)
    (∑ d, -(ml.1 d - y i d) ^ 2 / 2 / Real.exp (ml.2 d)) -
      (∑ d, -(meanFin (fun j => (y j d - ml.1 d) ^ 2)) / 2 / Real.exp (ml.2 d)))

/-- `CLUB.loglikeli` : unnormalized log-likelihood
`mean_i sum_d (-(mu - y)^2 / exp(logvar) - logvar)`. -/
def CLUB.loglikeli {xd yd h nb : ℕ} (c : CLUB xd yd h)
    (x : Fin nb → Fin xd → ℝ) (y : Fin nb → Fin yd → ℝ) : ℝ :=
  meanFin (fun i =>
    let ml := c.get_mu_logvar (x i)
    ∑ d, (-(ml.1 d - y i d) ^ 2 / Real.exp (ml.2 d) - ml.2 d))

/-- `CLUB.learning_loss = - loglikeli`. -/
def CLUB.learning_loss {xd yd h nb : ℕ} (c : CLUB xd yd h)
    (x : Fin nb → Fin xd → ℝ) (y : Fin nb → Fin yd → ℝ) : ℝ :=
  - c.loglikeli x y

/-! ## L1OutUB and VarUB -/

/-- The `L1OutUB` estimator: same approximator shape as `CLUB`. -/
structure L1OutUB (xd yd hidden_size : ℕ) where
  p_mu : MLP2 xd (hidden_size / 2) yd
  p_logvar : MLP2 xd (hidden_size / 2) yd

/-- `L1OutUB.get_mu_logvar`. -/
def L1OutUB.get_mu_logvar {xd yd h : ℕ} (c : L1OutUB xd yd h)
    (v : Fin xd → ℝ) : (Fin yd → ℝ) × (Fin yd → ℝ) :=
  (c.p_mu.run v, c.p_logvar.runTanh v)

/-- `L1OutUB.loglikeli`, identical formula to `CLUB.loglikeli`. -/
def L1OutUB.loglikeli {xd yd h nb : ℕ} (c : L1OutUB xd yd h)
    (x : Fin nb → Fin xd → ℝ) (y : Fin nb → Fin yd → ℝ) : ℝ :=
  meanFin (fun i =>
    let ml := c.get_mu_logvar (x i)
    ∑ d, (-(ml.1 d - y i d) ^ 2 / Real.exp (ml.2 d) - ml.2 d))

/-- `L1OutUB.learning_loss = - loglikeli`. -/
def L1OutUB.learning_loss {xd yd h nb : ℕ} (c : L1OutUB xd yd h)
    (x : Fin nb → Fin xd → ℝ) (y : Fin nb → Fin yd → ℝ) : ℝ :=
  - c.loglikeli x y

/-- The `VarUB` estimator: same approximator shape as `CLUB`. -/
structure VarUB (xd yd hidden_size : ℕ) where
  p_mu : MLP2 xd (hidden_size / 2) yd
  p_logvar : MLP2 xd (hidden_size / 2) yd

/-- `VarUB.get_mu_logvar`. -/
def VarUB.get_mu_logvar {xd yd h : ℕ} (c : VarUB xd yd h)
    (v : Fin xd → ℝ) : (Fin yd → ℝ) × (Fin yd → ℝ) :=
  (c.p_mu.run v, c.p_logvar.runTanh v)

/-- `VarUB.forward` : the moment-based variational upper bound
`mean (mu^2 + exp(logvar) - 1 - logvar) / 2` over all rows and dimensions. -/
def VarUB.forward {xd yd h nb : ℕ} (c : VarUB xd yd h)
    (x : Fin nb → Fin xd → ℝ) : ℝ :=
  meanFin (fun i =>
    let ml := c.get_mu_logvar (x i)
    meanFin (fun d => 1 / 2 * (ml.1 d ^ 2 + Real.exp (ml.2 d) - 1 - ml.2 d)))

/-- `VarUB.loglikeli`, identical formula to `CLUB.loglikeli`. -/
def VarUB.loglikeli {xd yd h nb : ℕ} (c : VarUB xd yd h)
    (x : Fin nb → Fin xd → ℝ) (y : Fin nb → Fin yd → ℝ) : ℝ :=
  meanFin (fun i =>
    let ml := c.get_mu_logvar (x i)
    ∑ d, (-(ml.1 d - y i d) ^ 2 / Real.exp (ml.2 d) - ml.2 d))

/-- `VarUB.learning_loss = - loglikeli`. -/
def VarUB.learning_loss {xd yd h nb : ℕ} (c : VarUB xd yd h)
    (x : Fin nb → Fin xd → ℝ) (y : Fin nb → Fin yd → ℝ) : ℝ :=
  - c.loglikeli x y

/-! ## CLUBSample (sampled, masked) -/

/-- The `CLUBSample` estimator: approximator networks as in `CLUB`, plus the
configuration `args` and the fixed `max_logvar` / `min_logvar` buffers. -/
structure CLUBSample (xd yd hidden_size : ℕ) where
  p_mu : MLP2 xd (hidden_size / 2) yd
  p_logvar : MLP2 xd (hidden_size / 2) yd
  args : Args

/-- The two-step smooth soft-clamp applied to a raw log-variance when
`args.soft_plus` is set:
`logstd = max_logvar - softplus(max_logvar - logvar)` followed by
`logvar = min_logvar + softplus(logstd - min_logvar)`. -/
def softClamp (maxlv minlv lv : ℝ) : ℝ :=
  minlv + softplus ((maxlv - softplus (maxlv - lv)) - minlv)

/-- `CLUBSample.get_mu_logvar` : mean and log-variance at one input row; the
tanh-bounded log-variance is soft-clamped when `args.soft_plus` is set. -/
def CLUBSample.get_mu_logvar {xd yd h : ℕ} (c : CLUBSample xd yd h)
    (v : Fin xd → ℝ) : (Fin yd → ℝ) × (Fin yd → ℝ) :=
  let mu := c.p_mu.run v
  let lv := c.p_logvar.runTanh v
  if c.args.soft_plus then
    (mu, fun d => softClamp (max_logvar yd d) (min_logvar yd d) (lv d))
  else (mu, lv)

/-- `CLUBSample.loglikeli` over already-selected rows (the source calls it on
`x_samples[mask_idx]`, `y_samples[mask_idx]`):
`mean_i sum_d (-(mu - y)^2 / exp(logvar) - logvar)`. -/
def CLUBSample.loglikeli {xd yd h : ℕ} (c : CLUBSample xd yd h)
    (xs : List (Fin xd → ℝ)) (ys : List (Fin yd → ℝ)) : Option ℝ :=
  meanO (List.zipWith (fun xv yv =>
    let ml := c.get_mu_logvar xv
    ∑ d, (-(ml.1 d - yv d) ^ 2 / Real.exp (ml.2 d) - ml.2 d)) xs ys)

/-- `CLUBSample.forward` (first returned component, the bound; the source
also returns `mu` and `logvar`):  positive term on the mask-selected rows,
negative term against the randomly re-paired mask-selected rows,
`mean(positive.sum - negative.sum) / 2`.  `none` is the NaN produced by the
mean over an empty selection. -/
def CLUBSample.forward {xd yd h nb : ℕ} (c : CLUBSample xd yd h)
    (x : Fin nb → Fin xd → ℝ) (y : Fin nb → Fin yd → ℝ)
    (mask : Fin nb → Bool) (perm : List ℕ) : Option ℝ :=
  let mi := maskIdx mask
  let ri := randomIndex mask perm
  let mls := (mi.map x).map (fun xv => c.get_mu_logvar xv)
  let positive := List.zipWith (fun ml yv =>
    ∑ d, -(ml.1 d - yv d) ^ 2 / Real.exp (ml.2 d)) mls (mi.map y)
  let negative := List.zipWith (fun ml yv =>
    ∑ d, -(ml.1 d - yv d) ^ 2 / Real.exp (ml.2 d)) mls (ri.map y)
  (meanO (List.zipWith (fun p q => p - q) positive negative)).map
    (fun ub => ub / 2)

/-- `CLUBSample.learning_loss = - loglikeli(x[mask_idx], y[mask_idx])`. -/
def CLUBSample.learning_loss {xd yd h nb : ℕ} (c : CLUBSample xd yd h)
    (x : Fin nb → Fin xd → ℝ) (y : Fin nb → Fin yd → ℝ)
    (mask : Fin nb → Bool) : Option ℝ :=
  (c.loglikeli ((maskIdx mask).map x) ((maskIdx mask).map y)).map
    (fun r => -r)

/-! ## Con_CLUBSample (conditioned, sampled, masked) -/

/-- The `Con_CLUBSample` estimator: approximator networks take the
concatenation of an input row and a conditioning row. -/
structure Con_CLUBSample (xd yd cd hidden_size : ℕ) where
  p_mu : MLP2 (xd + cd) (hidden_size / 2) yd
  p_logvar : MLP2 (xd + cd) (hidden_size / 2) yd
  args : Args

/-- `Con_CLUBSample.get_mu_logvar`, with the same optional soft-clamp as
`CLUBSample.get_mu_logvar`. -/
def Con_CLUBSample.get_mu_logvar {xd yd cd h : ℕ} (c : Con_CLUBSample xd yd cd h)
    (v : Fin (xd + cd) → ℝ) : (Fin yd → ℝ) × (Fin yd → ℝ) :=
  let mu := c.p_mu.run v
  let lv := c.p_logvar.runTanh v
  if c.args.soft_plus then
    (mu, fun d => softClamp (max_logvar yd d) (min_logvar yd d) (lv d))
  else (mu, lv)

/-- `Con_CLUBSample.loglikeli` over already-selected concatenated rows. -/
def Con_CLUBSample.loglikeli {xd yd cd h : ℕ} (c : Con_CLUBSample xd yd cd h)
    (xs : List (Fin (xd + cd) → ℝ)) (ys : List (Fin yd → ℝ)) : Option ℝ :=
  meanO (List.zipWith (fun xv yv =>
    let ml := c.get_mu_logvar xv
    ∑ d, (-(ml.1 d - yv d) ^ 2 / Real.exp (ml.2 d) - ml.2 d)) xs ys)

/-- `Con_CLUBSample.forward` (first returned component, the bound).
Positive term: density of `y[mask_idx]` under the distribution predicted
from `cat(x[mask_idx], con[mask_idx])`.  Negative term: if
`args.random_is_x` then the distribution is predicted from
`cat(x[random_index], con[mask_idx])` and evaluated at `y[mask_idx]`;
otherwise from `cat(x[mask_idx], con[random_index])` and evaluated at
`y[random_index]`.  Both terms carry the `- logvar` summand. -/
def Con_CLUBSample.forward {xd yd cd h nb : ℕ} (c : Con_CLUBSample xd yd cd h)
    (x : Fin nb → Fin xd → ℝ) (y : Fin nb → Fin yd → ℝ)
    (con : Fin nb → Fin cd → ℝ) (mask : Fin nb → Bool) (perm : List ℕ) :
    Option ℝ :=
  let mi := maskIdx mask
  let ri := randomIndex mask perm
  let posml := (List.zipWith (fun xv cv => Fin.append xv cv)
    (mi.map x) (mi.map con)).map (fun v => c.get_mu_logvar v)
  let positive := List.zipWith (fun ml yv =>
    ∑ d, (-(ml.1 d - yv d) ^ 2 / Real.exp (ml.2 d) - ml.2 d)) posml (mi.map y)
  let negative :=
    if c.args.random_is_x then
      let negml := (List.zipWith (fun xv cv => Fin.append xv cv)
        (ri.map x) (mi.map con)).map (fun v => c.get_mu_logvar v)
      List.zipWith (fun ml yv =>
        ∑ d, (-(ml.1 d - yv d) ^ 2 / Real.exp (ml.2 d) - ml.2 d)) negml (mi.map y)
    else
      let negml := (List.zipWith (fun xv cv => Fin.append xv cv)
        (mi.map x) (ri.map con)).map (fun v => c.get_mu_logvar v)
      List.zipWith (fun ml yv =>
        ∑ d, (-(ml.1 d - yv d) ^ 2 / Real.exp (ml.2 d) - ml.2 d)) negml (ri.map y)
  (meanO (List.zipWith (fun p q => p - q) positive negative)).map
    (fun ub => ub / 2)

/-- `Con_CLUBSample.learning_loss =
- loglikeli(cat(x[mask_idx], con[mask_idx]), y[mask_idx])`. -/
def Con_CLUBSample.learning_loss {xd yd cd h nb : ℕ}
    (c : Con_CLUBSample xd yd cd h) (x : Fin nb → Fin xd → ℝ)
    (y : Fin nb → Fin yd → ℝ) (con : Fin nb → Fin cd → ℝ)
    (mask : Fin nb → Bool) : Option ℝ :=
  (c.loglikeli (List.zipWith (fun xv cv => Fin.append xv cv)
      ((maskIdx mask).map x) ((maskIdx mask).map con))
    ((maskIdx mask).map y)).map (fun r => -r)

/-! ## Pknown_Con_CLUBSample (conditioned, approximator synchronized
externally) -/

/-- The `Pknown_Con_CLUBSample` estimator: a single encoder network
`Sequential(Linear, LeakyReLU, Linear)` whose output of width
`2 * latent_dim` is split into mean (first half) and log-variance (second
half).  The encoder input width is `rnn_hidden_dim * 2`, which at every call
site equals the width `xd + cd` of the concatenated input, so the structure
is indexed by `xd + cd` directly; `ld` is `latent_dim`, which also serves as
the target width in `loglikeli`. -/
structure Pknown_Con_CLUBSample (xd cd hid ld : ℕ) where
  encoder_l1 : Linear hid (xd + cd)
  encoder_l2 : Linear (ld + ld) hid
  args : Args

/-- `Pknown_Con_CLUBSample.get_mu_logvar` : run the encoder, split its output
into `mu` (entries `[: latent_dim]`) and `logvar` (entries
`[- latent_dim :]`), then apply the optional soft-clamp. -/
def Pknown_Con_CLUBSample.get_mu_logvar {xd cd hid ld : ℕ}
    (c : Pknown_Con_CLUBSample xd cd hid ld) (v : Fin (xd + cd) → ℝ) :
    (Fin ld → ℝ) × (Fin ld → ℝ) :=
  let lp := c.encoder_l2.run (fun i => leaky_relu (c.encoder_l1.run v i))
  let mu := fun d : Fin ld => lp (Fin.castAdd ld d)
  let lv := fun d : Fin ld => lp (Fin.natAdd ld d)
  if c.args.soft_plus then
    (mu, fun d => softClamp (max_logvar ld d) (min_logvar ld d) (lv d))
  else (mu, lv)

/-- `Pknown_Con_CLUBSample.forward` (first returned component, the bound):
identical structure to `Con_CLUBSample.forward`. -/
def Pknown_Con_CLUBSample.forward {xd cd hid ld nb : ℕ}
    (c : Pknown_Con_CLUBSample xd cd hid ld) (x : Fin nb → Fin xd → ℝ)
    (y : Fin nb → Fin ld → ℝ) (con : Fin nb → Fin cd → ℝ)
    (mask : Fin nb → Bool) (perm : List ℕ) : Option ℝ :=
  let mi := maskIdx mask
  let ri := randomIndex mask perm
  let posml := (List.zipWith (fun xv cv => Fin.append xv cv)
    (mi.map x) (mi.map con)).map (fun v => c.get_mu_logvar v)
  let positive := List.zipWith (fun ml yv =>
    ∑ d, (-(ml.1 d - yv d) ^ 2 / Real.exp (ml.2 d) - ml.2 d)) posml (mi.map y)
  let negative :=
    if c.args.random_is_x then
      let negml := (List.zipWith (fun xv cv => Fin.append xv cv)
        (ri.map x) (mi.map con)).map (fun v => c.get_mu_logvar v)
      List.zipWith (fun ml yv =>
        ∑ d, (-(ml.1 d - yv d) ^ 2 / Real.exp (ml.2 d) - ml.2 d)) negml (mi.map y)
    else
      let negml := (List.zipWith (fun xv cv => Fin.append xv cv)
        (mi.map x) (ri.map con)).map (fun v => c.get_mu_logvar v)
      List.zipWith (fun ml yv =>
        ∑ d, (-(ml.1 d - yv d) ^ 2 / Real.exp (ml.2 d) - ml.2 d)) negml (ri.map y)
  (meanO (List.zipWith (fun p q => p - q) positive negative)).map
    (fun ub => ub / 2)

/-! ## InfoNCE -/

/-- The `InfoNCE` estimator: scoring network
`Sequential(Linear(x_dim + y_dim, hidden_size), ReLU, Linear(hidden_size, 1),
Softplus)`. -/
structure InfoNCE (xd yd hidden_size : ℕ) where
  F_func : MLP2 (xd + yd) hidden_size 1

/-- The scalar score of the `InfoNCE` scoring network on a concatenated
sample pair (the softplus head applied to the single output unit). -/
def InfoNCE.score {xd yd h : ℕ} (c : InfoNCE xd yd h)
    (v : Fin (xd + yd) → ℝ) : ℝ :=
  softplus (c.F_func.run v 0)

/-- `InfoNCE.forward` :
`mean_i T0_i - (mean_i logsumexp_j T1[i][j] - log N)` where
`T0_i = F(x_i, y_i)` and `T1[i][j] = F(x_j, y_i)` (from
`x_tile[i][j] = x[j]`, `y_tile[i][j] = y[i]`). -/
def InfoNCE.forward {xd yd h nb : ℕ} (c : InfoNCE xd yd h)
    (x : Fin nb → Fin xd → ℝ) (y : Fin nb → Fin yd → ℝ) : ℝ :=
  meanFin (fun i => c.score (Fin.append (x i) (y i))) -
    (meanFin (fun i => logsumexpFin (fun j => c.score (Fin.append (x j) (y i))))
      - Real.log nb)

/-! ## The stabilized log_sum_exp helper -/

/-- Errors raised by the Python runtime that the embedding makes explicit. -/
inductive PyErr where
  | nameErrorNumber : PyErr
  | emptyMax : PyErr
deriving DecidableEq

/-- The `dim is not None` branch of the module-level `log_sum_exp`, on a
one-dimensional tensor (the reduction axis): subtract the maximum, exponentiate,
sum, take the log and add the maximum back.  `torch.max` of an empty tensor
raises, represented by the error value. -/
def log_sum_exp_dim (value : List ℝ) : Except PyErr ℝ :=
  match value.max? with
  | none => Except.error PyErr.emptyMax
  | some m =>
    Except.ok (m + Real.log ((value.map (fun r => Real.exp (r - m))).sum))

/-- The `dim is None` branch of the module-level `log_sum_exp`: it computes
`m = torch.max(value)` and `sum_exp = torch.sum(torch.exp(value - m))` and
then evaluates `isinstance(sum_exp, Number)`.  The name `Number` is never
imported in `mi_estimators.py`, so this branch raises
`NameError: name 'Number' is not defined` before returning. -/
def log_sum_exp_nodim (value : List ℝ) : Except PyErr ℝ :=
  match value.max? with
  | none => Except.error PyErr.emptyMax
  | some _ => Except.error PyErr.nameErrorNumber

/-! ## L1OutUB.forward over the extended reals -/

/-- `np.log` on a nonnegative float argument: `-inf` (here `⊥ : EReal`) at
zero, the real logarithm otherwise.  Used for the `np.log(batch_size - 1.)`
normalizer of `L1OutUB.forward`, whose argument is always nonnegative. -/
def npLogE (r : ℝ) : EReal :=
  if r = 0 then ⊥ else ((Real.log r : ℝ) : EReal)

/-- `L1OutUB.forward`, valued in the extended reals so that the IEEE
infinities arising at batch size 1 are represented, and faithful to the
source's tensor shapes: `positive` is `[N]`; `all_probs` is `[N, N]` with
`all_probs[i][j]` the predicted density of sample `j` under row `i`'s
distribution; `diag_mask = torch.ones([N]).diag().unsqueeze(-1) * (-20)`
has shape `[N, N, 1]`, so `all_probs + diag_mask` broadcasts to
`[N, N, N]` with entry `(a, b, c) = all_probs[b][c] + diag_mask[a][b]`;
`log_sum_exp(…, dim=0)` reduces over `a` (equal to the exact
`log (sum (exp …))` along the nonempty axis, theorem
`log_sum_exp_dim_eq_naive`), so the negative term is the `[N, N]` tensor
`negative[b][c] = logsumexp_a(all_probs[b][c] + diag_mask[a][b]) -
np.log(N-1)`; finally `positive - negative` broadcasts `positive` over the
first axis and `.mean()` averages all `N * N` entries. -/
def L1OutUB.forwardE {xd yd h nb : ℕ} (c : L1OutUB xd yd h)
    (x : Fin nb → Fin xd → ℝ) (y : Fin nb → Fin yd → ℝ) : EReal :=
  let ml := fun i => c.get_mu_logvar (x i)
  let positive : Fin nb → ℝ := fun i =>
    ∑ d, (-((ml i).1 d - y i d) ^ 2 / 2 / Real.exp ((ml i).2 d) -
      ((ml i).2 d) / 2)
  let all_probs : Fin nb → Fin nb → ℝ := fun i j =>
    ∑ d, (-(y j d - (ml i).1 d) ^ 2 / 2 / Real.exp ((ml i).2 d) -
      ((ml i).2 d) / 2)
  let diag_mask : Fin nb → Fin nb → ℝ := fun a b => if a = b then -20 else 0
  let negative : Fin nb → Fin nb → EReal := fun b c =>
    ((logsumexpFin (fun a => all_probs b c + diag_mask a b) : ℝ) : EReal) -
      npLogE ((nb : ℝ) - 1)
  (∑ b, ∑ c, (((positive c : ℝ) : EReal) - negative b c)) *
    ((((nb : ℝ) * (nb : ℝ))⁻¹ : ℝ) : EReal)

/-- The `L1OutUB.forward` computation as claim C8 words it for batches of
size at least 2 (and as the source's own inline shape comment `#[nsample]`
on the negative term intends): per sample, the negative term is a stable
log-sum-exp over all rows' predicted densities of that sample with the self
term suppressed by an additive `-20` diagonal mask of shape `[N, N]` (no
broadcast), normalized by `np.log(N-1)`; the bound is the mean of the `N`
per-sample differences. -/
def L1OutUB.forwardClaimC8 {xd yd h nb : ℕ} (c : L1OutUB xd yd h)
    (x : Fin nb → Fin xd → ℝ) (y : Fin nb → Fin yd → ℝ) : EReal :=
  let ml := fun i => c.get_mu_logvar (x i)
  let positive : Fin nb → ℝ := fun i =>
    ∑ d, (-((ml i).1 d - y i d) ^ 2 / 2 / Real.exp ((ml i).2 d) -
      ((ml i).2 d) / 2)
  let all_probs : Fin nb → Fin nb → ℝ := fun i j =>
    ∑ d, (-(y j d - (ml i).1 d) ^ 2 / 2 / Real.exp ((ml i).2 d) -
      ((ml i).2 d) / 2)
  let diag_mask : Fin nb → Fin nb → ℝ := fun i j => if i = j then -20 else 0
  let negative : Fin nb → EReal := fun j =>
    ((logsumexpFin (fun i => all_probs i j + diag_mask i j) : ℝ) : EReal) -
      npLogE ((nb : ℝ) - 1)
  (∑ j, (((positive j : ℝ) : EReal) - negative j)) *
    ((((nb : ℝ)⁻¹ : ℝ)) : EReal)

/-! ## Concrete data used by witnesses and counterexamples -/

/-- A linear layer with all weights and biases zero. -/
def zeroLinear (dout din : ℕ) : Linear dout din :=
  ⟨fun _ _ => 0, fun _ => 0⟩

/-- A two-layer perceptron with all weights and biases zero. -/
def zeroMLP2 (din hid dout : ℕ) : MLP2 din hid dout :=
  ⟨zeroLinear hid din, zeroLinear dout hid⟩

/-- A batch of one row of one zero entry. -/
def zB : Fin 1 → Fin 1 → ℝ := fun _ _ => 0

/-! ## Helper lemmas -/

/-- Every index in `maskIdx mask` is selected by the mask. -/
theorem mem_maskIdx {n : ℕ} {mask : Fin n → Bool} {i : Fin n}
    (h : i ∈ maskIdx mask) : mask i = true :=
  (List.mem_filter.mp h).2

/-- Every index in `randomIndex mask perm` is selected by the mask. -/
theorem mem_randomIndex {n : ℕ} {mask : Fin n → Bool} {perm : List ℕ}
    {i : Fin n} (h : i ∈ randomIndex mask perm) : mask i = true := by
  obtain ⟨j, _, hget⟩ := List.mem_filterMap.mp h
  exact mem_maskIdx (List.get?_mem hget)

/-- An all-false mask selects no indices. -/
theorem maskIdx_false {n : ℕ} : maskIdx (fun _ : Fin n => false) = [] := by
  simp [maskIdx]

/-! ## Claim C1 -/

/-- Claim C1: with an all-false mask, the sampled CLUB-family calls
(`CLUBSample.forward`, `Con_CLUBSample.forward` and their `learning_loss`)
do not raise any error: each computes a mean over an empty selection of
rows, which is NaN (`none`), and returns it.  This refutes the claim that an
`InvalidMaskError` is raised (no such error exists in the source). -/
theorem c1_empty_mask_returns_nan {xd yd cd h h2 nb : ℕ}
    (c : CLUBSample xd yd h) (cc : Con_CLUBSample xd yd cd h2)
    (x : Fin nb → Fin xd → ℝ) (y : Fin nb → Fin yd → ℝ)
    (con : Fin nb → Fin cd → ℝ) (perm : List ℕ) :
    CLUBSample.forward c x y (fun _ => false) perm = none ∧
    CLUBSample.learning_loss c x y (fun _ => false) = none ∧
    Con_CLUBSample.forward cc x y con (fun _ => false) perm = none ∧
    Con_CLUBSample.learning_loss cc x y con (fun _ => false) = none := by
  refine ⟨?_, ?_, ?_, ?_⟩ <;>
    simp [CLUBSample.forward, CLUBSample.learning_loss, CLUBSample.loglikeli,
      Con_CLUBSample.forward, Con_CLUBSample.learning_loss,
      Con_CLUBSample.loglikeli, maskIdx_false, meanO]

/-! ## Claim C3 -/

/-- Claim C3: for `CLUB`, `L1OutUB` and `VarUB`, `learning_loss` is exactly
the negation of `loglikeli` on the same inputs and parameters. -/
theorem c3_learning_loss_neg_loglikeli {xd yd h nb : ℕ}
    (c : CLUB xd yd h) (l : L1OutUB xd yd h) (v : VarUB xd yd h)
    (x : Fin nb → Fin xd → ℝ) (y : Fin nb → Fin yd → ℝ) :
    CLUB.learning_loss c x y = -(CLUB.loglikeli c x y) ∧
    L1OutUB.learning_loss l x y = -(L1OutUB.loglikeli l x y) ∧
    VarUB.learning_loss v x y = -(VarUB.loglikeli v x y) :=
  ⟨rfl, rfl, rfl⟩

/-! ## Claim C9 -/

/-- The soft-clamp as worded by the spec:
`logstd = max_logvar - softplus(max_logvar - logvar)` followed by
`logvar = min_logvar + softplus(logstd - min_logvar)`. -/
def softClampSpec (maxlv minlv lv : ℝ) : ℝ :=
  let logstd := maxlv - softplus (maxlv - lv)
  minlv + softplus (logstd - minlv)

/-- Claim C9: with the `soft_plus` flag on, `get_mu_logvar` of the sampled
CLUB-family estimators returns the log-variance transformed by the two-step
smooth soft-clamp; with the flag off it returns the tanh-bounded head
output unchanged. -/
theorem c9_soft_clamp {xd yd cd h h2 : ℕ}
    (c : CLUBSample xd yd h) (cc : Con_CLUBSample xd yd cd h2)
    (v : Fin xd → ℝ) (w : Fin (xd + cd) → ℝ) :
    ((c.get_mu_logvar v).2 =
      if c.args.soft_plus then
        fun d => softClampSpec (max_logvar yd d) (min_logvar yd d)
          (c.p_logvar.runTanh v d)
      else c.p_logvar.runTanh v) ∧
    ((cc.get_mu_logvar w).2 =
      if cc.args.soft_plus then
        fun d => softClampSpec (max_logvar yd d) (min_logvar yd d)
          (cc.p_logvar.runTanh w d)
      else cc.p_logvar.runTanh w) := by
  constructor
  · cases hb : c.args.soft_plus <;>
      simp [CLUBSample.get_mu_logvar, hb, softClamp, softClampSpec]
  · cases hb : cc.args.soft_plus <;>
      simp [Con_CLUBSample.get_mu_logvar, hb, softClamp, softClampSpec]

/-! ## Claim C2 -/

/-- Claim C2: when the mask selects exactly one row, the only valid
`randperm` draw is the identity, the random pairing maps the selected row to
itself, and the bound returned by `CLUBSample.forward` and
`Con_CLUBSample.forward` is exactly `0`. -/
theorem c2_single_row_bound_zero {xd yd cd h h2 nb : ℕ}
    (c : CLUBSample xd yd h) (cc : Con_CLUBSample xd yd cd h2)
    (x x2 : Fin nb → Fin xd → ℝ) (y y2 : Fin nb → Fin yd → ℝ)
    (con : Fin nb → Fin cd → ℝ) (mask : Fin nb → Bool) (perm : List ℕ)
    (hone : (maskIdx mask).length = 1)
    (hperm : perm.Perm (List.range (maskIdx mask).length)) :
    CLUBSample.forward c x y mask perm = some 0 ∧
    Con_CLUBSample.forward cc x2 y2 con mask perm = some 0 := by
  obtain ⟨i0, hmi⟩ := List.length_eq_one.mp hone
  rw [hone, show List.range 1 = [0] from rfl] at hperm
  have hp : perm = [0] := List.perm_singleton.mp hperm
  subst hp
  constructor
  · simp [CLUBSample.forward, randomIndex, hmi, meanO]
  · cases hb : cc.args.random_is_x <;>
      simp [Con_CLUBSample.forward, randomIndex, hmi, hb, meanO]

/-- Concrete `CLUBSample` instance for the witness of claim C2. -/
def c2club : CLUBSample 1 1 2 :=
  ⟨zeroMLP2 1 1 1, zeroMLP2 1 1 1, ⟨false, false⟩⟩

/-- Concrete `Con_CLUBSample` instance for the witness of claim C2. -/
def c2con : Con_CLUBSample 1 1 1 2 :=
  ⟨zeroMLP2 2 1 1, zeroMLP2 2 1 1, ⟨false, false⟩⟩

/-- Witness for claim C2 at a concrete single-row input. -/
theorem c2_single_row_bound_zero_witness :
    (maskIdx (fun _ : Fin 1 => true)).length = 1 ∧
    ([0] : List ℕ).Perm (List.range (maskIdx (fun _ : Fin 1 => true)).length) ∧
    (CLUBSample.forward c2club zB zB (fun _ => true) [0] = some 0 ∧
      Con_CLUBSample.forward c2con zB zB zB (fun _ => true) [0] = some 0) :=
  ⟨by rfl, by rfl,
    c2_single_row_bound_zero c2club c2con zB zB zB zB zB
      (fun _ => true) [0] (by rfl) (by rfl)⟩

/-- Each entry of a vector is at most the log-sum-exp of the vector. -/
theorem le_logsumexpFin {m : ℕ} (v : Fin m → ℝ) (i : Fin m) :
    v i ≤ logsumexpFin v := by
  unfold logsumexpFin
  have hne : (Finset.univ : Finset (Fin m)).Nonempty := ⟨i, Finset.mem_univ _⟩
  have hpos : 0 < ∑ j, Real.exp (v j) :=
    Finset.sum_pos (fun j _ => Real.exp_pos _) hne
  rw [Real.le_log_iff_exp_le hpos]
  exact Finset.single_le_sum (fun j _ => (Real.exp_pos _).le)
    (Finset.mem_univ i)

/-! ## Claim C5 -/

/-- Claim C5: for every scoring-network parameter setting and every nonempty
batch, the InfoNCE bound is at most `log (batch size)`, because each positive
score appears as a summand of the corresponding row log-sum-exp. -/
theorem c5_infonce_le_log_batch {xd yd h nb : ℕ} (c : InfoNCE xd yd h)
    (x : Fin nb → Fin xd → ℝ) (y : Fin nb → Fin yd → ℝ) (hn : 0 < nb) :
    InfoNCE.forward c x y ≤ Real.log nb := by
  have hrow : ∀ i, c.score (Fin.append (x i) (y i)) ≤
      logsumexpFin (fun j => c.score (Fin.append (x j) (y i))) :=
    fun i => le_logsumexpFin (fun j => c.score (Fin.append (x j) (y i))) i
  have hc : (0 : ℝ) < nb := by exact_mod_cast hn
  have hmean : meanFin (fun i => c.score (Fin.append (x i) (y i))) ≤
      meanFin (fun i =>
        logsumexpFin (fun j => c.score (Fin.append (x j) (y i)))) := by
    unfold meanFin
    exact div_le_div_of_nonneg_right
      (Finset.sum_le_sum (fun i _ => hrow i)) hc.le
  unfold InfoNCE.forward
  linarith [hmean]

/-- Concrete `InfoNCE` instance for the witness of claim C5. -/
def c5inf : InfoNCE 1 1 2 := ⟨zeroMLP2 2 2 1⟩

/-- Witness for claim C5 at a concrete batch of size 1. -/
theorem c5_infonce_le_log_batch_witness :
    0 < 1 ∧ InfoNCE.forward c5inf zB zB ≤ Real.log ((1 : ℕ) : ℝ) :=
  ⟨by norm_num, c5_infonce_le_log_batch c5inf zB zB (by norm_num)⟩

/-! ## Claim C10 -/

/-- Claim C10: the values on rows not selected by the mask never influence
the sampled CLUB-family results: two calls to `forward` (with the same
random permutation draw) or to `learning_loss` whose inputs agree on every
mask-selected row return equal values. -/
theorem c10_masked_rows_no_influence {xd yd cd h h2 nb : ℕ}
    (c : CLUBSample xd yd h) (cc : Con_CLUBSample xd yd cd h2)
    (x x2 : Fin nb → Fin xd → ℝ) (y y2 : Fin nb → Fin yd → ℝ)
    (con con2 : Fin nb → Fin cd → ℝ) (mask : Fin nb → Bool) (perm : List ℕ)
    (hx : ∀ i, mask i = true → x i = x2 i)
    (hy : ∀ i, mask i = true → y i = y2 i)
    (hcon : ∀ i, mask i = true → con i = con2 i) :
    CLUBSample.forward c x y mask perm =
      CLUBSample.forward c x2 y2 mask perm ∧
    CLUBSample.learning_loss c x y mask =
      CLUBSample.learning_loss c x2 y2 mask ∧
    Con_CLUBSample.forward cc x y con mask perm =
      Con_CLUBSample.forward cc x2 y2 con2 mask perm ∧
    Con_CLUBSample.learning_loss cc x y con mask =
      Con_CLUBSample.learning_loss cc x2 y2 con2 mask := by
  have hmx : (maskIdx mask).map x = (maskIdx mask).map x2 :=
    List.map_congr_left (fun i hi => hx i (mem_maskIdx hi))
  have hmy : (maskIdx mask).map y = (maskIdx mask).map y2 :=
    List.map_congr_left (fun i hi => hy i (mem_maskIdx hi))
  have hmcon : (maskIdx mask).map con = (maskIdx mask).map con2 :=
    List.map_congr_left (fun i hi => hcon i (mem_maskIdx hi))
  have hrx : (randomIndex mask perm).map x = (randomIndex mask perm).map x2 :=
    List.map_congr_left (fun i hi => hx i (mem_randomIndex hi))
  have hry : (randomIndex mask perm).map y = (randomIndex mask perm).map y2 :=
    List.map_congr_left (fun i hi => hy i (mem_randomIndex hi))
  have hrcon : (randomIndex mask perm).map con =
      (randomIndex mask perm).map con2 :=
    List.map_congr_left (fun i hi => hcon i (mem_randomIndex hi))
  refine ⟨?_, ?_, ?_, ?_⟩
  · simp only [CLUBSample.forward, hmx, hmy, hry]
  · simp only [CLUBSample.learning_loss, hmx, hmy]
  · simp only [Con_CLUBSample.forward, hmx, hmy, hmcon, hrx, hry, hrcon]
  · simp only [Con_CLUBSample.learning_loss, hmx, hmy, hmcon]

/-- Mask selecting only the first of two rows, for the witness of C10. -/
def m10 : Fin 2 → Bool := fun i => decide (i.val = 0)

/-- Two-row batch of zeros, for the witness of C10. -/
def b10 : Fin 2 → Fin 1 → ℝ := fun _ _ => 0

/-- Two-row batch agreeing with `b10` on the selected row 0 and differing
arbitrarily on the masked-out row 1, for the witness of C10. -/
def b10alt : Fin 2 → Fin 1 → ℝ := fun i _ => if i.val = 0 then 0 else 5

/-- Witness for claim C10 at a concrete input pair differing only on a
masked-out row. -/
theorem c10_masked_rows_no_influence_witness :
    (∀ i, m10 i = true → b10 i = b10alt i) ∧
    (CLUBSample.forward c2club b10 b10 m10 [0] =
        CLUBSample.forward c2club b10alt b10alt m10 [0] ∧
      CLUBSample.learning_loss c2club b10 b10 m10 =
        CLUBSample.learning_loss c2club b10alt b10alt m10 ∧
      Con_CLUBSample.forward c2con b10 b10 b10 m10 [0] =
        Con_CLUBSample.forward c2con b10alt b10alt b10alt m10 [0] ∧
      Con_CLUBSample.learning_loss c2con b10 b10 b10 m10 =
        Con_CLUBSample.learning_loss c2con b10alt b10alt b10alt m10) := by
  have hagree : ∀ i, m10 i = true → b10 i = b10alt i := by
    intro i hi
    fin_cases i
    · funext d; simp [b10, b10alt]
    · simp [m10] at hi
  exact ⟨hagree, c10_masked_rows_no_influence c2club c2con b10 b10alt b10
    b10alt b10 b10alt m10 [0] hagree hagree hagree⟩

/-! ## Claim C4 -/

/-- On any nonempty input along the given reduction axis, the stabilized
branch of `log_sum_exp` returns exactly the naive
`log (sum (exp values))`. -/
theorem log_sum_exp_dim_eq_naive (v : List ℝ) (hv : v ≠ []) :
    log_sum_exp_dim v = Except.ok (Real.log ((v.map Real.exp).sum)) := by
  obtain ⟨m, hm⟩ : ∃ m, v.max? = some m := by
    cases h : v.max? with
    | none => exact absurd (List.max?_eq_none_iff.mp h) hv
    | some m => exact ⟨m, rfl⟩
  unfold log_sum_exp_dim
  rw [hm]
  show Except.ok (m + Real.log ((v.map (fun r => Real.exp (r - m))).sum)) =
    Except.ok (Real.log ((v.map Real.exp).sum))
  have hexp : ∀ r : ℝ, Real.exp (r - m) = Real.exp r * Real.exp (-m) := by
    intro r
    rw [Real.exp_sub, Real.exp_neg, div_eq_mul_inv]
  have hsum : (v.map (fun r => Real.exp (r - m))).sum =
      (v.map Real.exp).sum * Real.exp (-m) := by
    calc (v.map (fun r => Real.exp (r - m))).sum
        = (v.map (fun r => Real.exp r * Real.exp (-m))).sum := by
          simp only [hexp]
      _ = (v.map Real.exp).sum * Real.exp (-m) :=
          List.sum_map_mul_right v Real.exp (Real.exp (-m))
  have hpos : 0 < (v.map Real.exp).sum := by
    apply List.sum_pos
    · intro r hr
      obtain ⟨s, _, hs⟩ := List.mem_map.mp hr
      exact hs ▸ Real.exp_pos s
    · simpa using hv
  rw [hsum, Real.log_mul hpos.ne.symm (Real.exp_ne_zero _), Real.log_exp]
  congr 1
  ring

/-- Claim C4, refuted in the no-reduction-axis case: the `dim=None` branch of
`log_sum_exp` raises `NameError` (the `Number` check references a name that
is never imported) instead of returning the naive global log-sum-exp; the
`dim`-given branch does match the naive value (here evaluated at the
concrete input `[0, 1]`). -/
theorem c4_log_sum_exp_nodim_raises :
    log_sum_exp_nodim [(0 : ℝ)] = Except.error PyErr.nameErrorNumber ∧
    log_sum_exp_dim [(0 : ℝ), 1] =
      Except.ok (Real.log (Real.exp 0 + Real.exp 1)) := by
  constructor
  · rfl
  · rw [log_sum_exp_dim_eq_naive _ (by simp)]
    simp

/-! ## Claim C8 -/

/-- The all-zero linear layer maps every input to zero. -/
theorem zeroLinear_run (dout din : ℕ) (v : Fin din → ℝ) :
    (zeroLinear dout din).run v = fun _ => 0 := by
  funext i
  simp [zeroLinear, Linear.run]

/-- The all-zero two-layer perceptron maps every input to zero. -/
theorem zeroMLP2_run (din hid dout : ℕ) (v : Fin din → ℝ) :
    (zeroMLP2 din hid dout).run v = fun _ => 0 := by
  unfold zeroMLP2 MLP2.run
  have h1 : (fun i => relu ((zeroLinear hid din).run v i)) =
      fun _ : Fin hid => (0 : ℝ) := by
    funext i
    rw [zeroLinear_run]
    simp [relu]
  rw [h1, zeroLinear_run]

/-- The all-zero tanh-headed perceptron maps every input to zero. -/
theorem zeroMLP2_runTanh (din hid dout : ℕ) (v : Fin din → ℝ) :
    (zeroMLP2 din hid dout).runTanh v = fun _ => 0 := by
  funext i
  unfold MLP2.runTanh
  rw [zeroMLP2_run]
  exact Real.tanh_zero

/-- Concrete `L1OutUB` instance for claim C8. -/
def c8l1 : L1OutUB 1 1 2 := ⟨zeroMLP2 1 1 1, zeroMLP2 1 1 1⟩

/-! ## Claim C6 -/

/-- Per-row Gaussian log-density term of the conditioned estimator:
`sum_d (-(mu - y)^2 / exp(logvar) - logvar)` with `(mu, logvar)` predicted
from the concatenated input row. -/
def conGaussRow {xd yd cd h : ℕ} (c : Con_CLUBSample xd yd cd h)
    (xin : Fin (xd + cd) → ℝ) (yv : Fin yd → ℝ) : ℝ :=
  let ml := c.get_mu_logvar xin
  ∑ d, (-(ml.1 d - yv d) ^ 2 / Real.exp (ml.2 d) - ml.2 d)

/-- `Con_CLUBSample.forward` as claim C6 words it: at negative-sampling time
exactly one of the input batch `x` or the conditioning batch `con` is
shuffled, and every other batch — including the target batch `y` — is held
fixed at the mask-selected indices. -/
def Con_CLUBSample.forwardC6Claim {xd yd cd h nb : ℕ}
    (c : Con_CLUBSample xd yd cd h) (x : Fin nb → Fin xd → ℝ)
    (y : Fin nb → Fin yd → ℝ) (con : Fin nb → Fin cd → ℝ)
    (mask : Fin nb → Bool) (perm : List ℕ) : Option ℝ :=
  let mi := maskIdx mask
  let ri := randomIndex mask perm
  let positive := List.zipWith (fun v yv => conGaussRow c v yv)
    (List.zipWith (fun xv cv => Fin.append xv cv) (mi.map x) (mi.map con))
    (mi.map y)
  let negative :=
    if c.args.random_is_x then
      List.zipWith (fun v yv => conGaussRow c v yv)
        (List.zipWith (fun xv cv => Fin.append xv cv) (ri.map x) (mi.map con))
        (mi.map y)
    else
      List.zipWith (fun v yv => conGaussRow c v yv)
        (List.zipWith (fun xv cv => Fin.append xv cv) (mi.map x) (ri.map con))
        (mi.map y)
  (meanO (List.zipWith (fun p q => p - q) positive negative)).map
    (fun ub => ub / 2)

/-- Linear layer of width 2 reading only its first input coordinate. -/
def xOnlyLinear : Linear 1 2 :=
  ⟨fun _ j => if (j : ℕ) = 0 then 1 else 0, fun _ => 0⟩

/-- Identity-like 1-to-1 linear layer. -/
def idLinear : Linear 1 1 := ⟨fun _ _ => 1, fun _ => 0⟩

/-- Perceptron computing `relu` of the first input coordinate. -/
def c6net : MLP2 2 1 1 := ⟨xOnlyLinear, idLinear⟩

/-- Concrete `Con_CLUBSample` instance (with `random_is_x = false`) for the
counterexample to claim C6. -/
def c6est : Con_CLUBSample 1 1 1 2 := ⟨c6net, zeroMLP2 2 1 1, ⟨false, false⟩⟩

/-- Concrete input batch `x = (1, 2)` for the counterexample to claim C6. -/
def xv6 : Fin 2 → Fin 1 → ℝ := fun i _ => if (i : ℕ) = 0 then 1 else 2

/-- Concrete target batch `y = (0, 3)` for the counterexample to claim C6. -/
def yv6 : Fin 2 → Fin 1 → ℝ := fun i _ => if (i : ℕ) = 0 then 0 else 3

/-- Concrete conditioning batch `con = (0, 0)` for the counterexample to
claim C6. -/
def cv6 : Fin 2 → Fin 1 → ℝ := fun _ _ => 0

/-- The first coordinate of an appended pair of width-1 rows is the first
row's entry. -/
theorem append_at_zero (a b : Fin 1 → ℝ) : Fin.append a b 0 = a 0 := rfl

/-- `c6est` predicts mean `relu (xin 0)` and log-variance `0` for every
concatenated input row. -/
theorem c6est_ml (v : Fin 2 → ℝ) :
    c6est.get_mu_logvar v = (fun _ => relu (v 0), fun _ => 0) := by
  show (c6net.run v, (zeroMLP2 2 1 1).runTanh v) = _
  rw [zeroMLP2_runTanh]
  have hmu : c6net.run v = fun _ => relu (v 0) := by
    funext d
    unfold c6net MLP2.run Linear.run xOnlyLinear idLinear
    simp [Fin.sum_univ_two]
  rw [hmu]

/-- Counterexample to claim C6: with `random_is_x = false` the source
shuffles the target batch `y` along with the conditioning batch (it
evaluates the negative density at `y[random_index]`), so the returned bound
differs from the claimed computation in which `y` is held fixed at the
mask-selected indices. -/
theorem c6_y_not_fixed_counterexample :
    Con_CLUBSample.forward c6est xv6 yv6 cv6 (fun _ => true) [1, 0] ≠
      Con_CLUBSample.forwardC6Claim c6est xv6 yv6 cv6 (fun _ => true) [1, 0] := by
  have hmi : maskIdx (fun _ : Fin 2 => true) = [0, 1] := rfl
  have hri : randomIndex (fun _ : Fin 2 => true) [1, 0] = [1, 0] := rfl
  have hflag : c6est.args.random_is_x = false := rfl
  have h1 : Con_CLUBSample.forward c6est xv6 yv6 cv6 (fun _ => true) [1, 0] =
      some (3 / 2) := by
    unfold Con_CLUBSample.forward
    rw [hmi, hri]
    simp [hflag, c6est_ml, append_at_zero, xv6, yv6, cv6, relu, meanO]
    norm_num
  have h2 : Con_CLUBSample.forwardC6Claim c6est xv6 yv6 cv6
      (fun _ => true) [1, 0] = some 0 := by
    unfold Con_CLUBSample.forwardC6Claim
    rw [hmi, hri]
    simp [hflag, conGaussRow, c6est_ml, append_at_zero, xv6, yv6, cv6, relu,
      meanO]
  rw [h1, h2]
  simp

/-- The amended negative-sampling description of `Con_CLUBSample.forward`:
when `random_is_x` is set, `x` is shuffled while `con` and `y` stay at the
mask-selected indices; otherwise `con` and `y` are both shuffled by the same
random index while `x` stays at the mask-selected indices. -/
def Con_CLUBSample.forwardC6Amended {xd yd cd h nb : ℕ}
    (c : Con_CLUBSample xd yd cd h) (x : Fin nb → Fin xd → ℝ)
    (y : Fin nb → Fin yd → ℝ) (con : Fin nb → Fin cd → ℝ)
    (mask : Fin nb → Bool) (perm : List ℕ) : Option ℝ :=
  let mi := maskIdx mask
  let ri := randomIndex mask perm
  let positive := List.zipWith (fun v yv => conGaussRow c v yv)
    (List.zipWith (fun xv cv => Fin.append xv cv) (mi.map x) (mi.map con))
    (mi.map y)
  let negative :=
    if c.args.random_is_x then
      List.zipWith (fun v yv => conGaussRow c v yv)
        (List.zipWith (fun xv cv => Fin.append xv cv) (ri.map x) (mi.map con))
        (mi.map y)
    else
      List.zipWith (fun v yv => conGaussRow c v yv)
        (List.zipWith (fun xv cv => Fin.append xv cv) (mi.map x) (ri.map con))
        (ri.map y)
  (meanO (List.zipWith (fun p q => p - q) positive negative)).map
    (fun ub => ub / 2)

/-- Per-row Gaussian log-density term of the externally-synchronized
conditioned estimator. -/
def pknownGaussRow {xd cd hid ld : ℕ} (c : Pknown_Con_CLUBSample xd cd hid ld)
    (xin : Fin (xd + cd) → ℝ) (yv : Fin ld → ℝ) : ℝ :=
  let ml := c.get_mu_logvar xin
  ∑ d, (-(ml.1 d - yv d) ^ 2 / Real.exp (ml.2 d) - ml.2 d)

/-- The amended negative-sampling description of
`Pknown_Con_CLUBSample.forward`, identical in structure to
`Con_CLUBSample.forwardC6Amended`. -/
def Pknown_Con_CLUBSample.forwardC6Amended {xd cd hid ld nb : ℕ}
    (c : Pknown_Con_CLUBSample xd cd hid ld) (x : Fin nb → Fin xd → ℝ)
    (y : Fin nb → Fin ld → ℝ) (con : Fin nb → Fin cd → ℝ)
    (mask : Fin nb → Bool) (perm : List ℕ) : Option ℝ :=
  let mi := maskIdx mask
  let ri := randomIndex mask perm
  let positive := List.zipWith (fun v yv => pknownGaussRow c v yv)
    (List.zipWith (fun xv cv => Fin.append xv cv) (mi.map x) (mi.map con))
    (mi.map y)
  let negative :=
    if c.args.random_is_x then
      List.zipWith (fun v yv => pknownGaussRow c v yv)
        (List.zipWith (fun xv cv => Fin.append xv cv) (ri.map x) (mi.map con))
        (mi.map y)
    else
      List.zipWith (fun v yv => pknownGaussRow c v yv)
        (List.zipWith (fun xv cv => Fin.append xv cv) (mi.map x) (ri.map con))
        (ri.map y)
  (meanO (List.zipWith (fun p q => p - q) positive negative)).map
    (fun ub => ub / 2)

/-- Amended claim C6: in the conditioned variants' forward, when
`random_is_x` is set exactly the input batch `x` is shuffled with `con` and
`y` held fixed at the mask-selected indices; when it is not set, the
conditioning batch `con` and the target batch `y` are both shuffled by the
same random index while `x` is held fixed. -/
theorem c6_shuffle_amended {xd yd cd h xd2 cd2 hid ld nb nb2 : ℕ}
    (c : Con_CLUBSample xd yd cd h) (p : Pknown_Con_CLUBSample xd2 cd2 hid ld)
    (x : Fin nb → Fin xd → ℝ) (y : Fin nb → Fin yd → ℝ)
    (con : Fin nb → Fin cd → ℝ) (mask : Fin nb → Bool) (perm : List ℕ)
    (x2 : Fin nb2 → Fin xd2 → ℝ) (y2 : Fin nb2 → Fin ld → ℝ)
    (con2 : Fin nb2 → Fin cd2 → ℝ) (mask2 : Fin nb2 → Bool)
    (perm2 : List ℕ) :
    Con_CLUBSample.forward c x y con mask perm =
      Con_CLUBSample.forwardC6Amended c x y con mask perm ∧
    Pknown_Con_CLUBSample.forward p x2 y2 con2 mask2 perm2 =
      Pknown_Con_CLUBSample.forwardC6Amended p x2 y2 con2 mask2 perm2 := by
  constructor
  · unfold Con_CLUBSample.forward Con_CLUBSample.forwardC6Amended
    cases hb : c.args.random_is_x <;>
      simp [hb, conGaussRow, List.zipWith_map_left]
  · unfold Pknown_Con_CLUBSample.forward Pknown_Con_CLUBSample.forwardC6Amended
    cases hb : p.args.random_is_x <;>
      simp [hb, pknownGaussRow, List.zipWith_map_left]

/-! ## Claim C7 -/

/-- Perceptron computing `relu` of its single input coordinate. -/
def c7net : MLP2 1 1 1 := ⟨idLinear, idLinear⟩

/-- Concrete `CLUBSample` instance for the counterexample to claim C7. -/
def c7est : CLUBSample 1 1 2 := ⟨c7net, zeroMLP2 1 1 1, ⟨false, false⟩⟩

/-- Concrete input batch `x = (1, 2, 3)` for the counterexample to C7. -/
def xv7 : Fin 3 → Fin 1 → ℝ :=
  fun i _ => if (i : ℕ) = 0 then 1 else if (i : ℕ) = 1 then 2 else 3

/-- Concrete target batch `y = (0, 0, 7)` for the counterexample to C7. -/
def yv7 : Fin 3 → Fin 1 → ℝ := fun i _ => if (i : ℕ) = 2 then 7 else 0

/-- The 3-cycle `0 → 1 → 2 → 0` on row indices, used to permute the batches
in the counterexample to C7. -/
def cyc3 : Fin 3 → Fin 3 :=
  fun i => if (i : ℕ) = 0 then 1 else if (i : ℕ) = 1 then 2 else 0

/-- The identity-built perceptron `c7net` computes `relu` of its input
coordinate. -/
theorem c7net_run (v : Fin 1 → ℝ) : c7net.run v = fun _ => relu (v 0) := by
  funext d
  unfold c7net MLP2.run Linear.run idLinear
  simp

/-- `c7est` predicts mean `relu (v 0)` and log-variance `0` at every input
row. -/
theorem c7est_ml (v : Fin 1 → ℝ) :
    c7est.get_mu_logvar v = (fun _ => relu (v 0), fun _ => 0) := by
  show (c7net.run v, (zeroMLP2 1 1 1).runTanh v) = _
  rw [zeroMLP2_runTanh, c7net_run]

/-- Counterexample to claim C7: `CLUBSample.forward` with the random draw
held fixed is not invariant under permuting all input batches identically.
With the identity-like network, `x = (1,2,3)`, `y = (0,0,7)`, an all-true
mask, the draw swapping the first two selected rows, and the batches
permuted by the 3-cycle, the bound changes from `0` to `7/3`. -/
theorem c7_clubsample_not_perm_invariant :
    CLUBSample.forward c7est (fun i => xv7 (cyc3 i)) (fun i => yv7 (cyc3 i))
        (fun _ => true) [1, 0, 2] ≠
      CLUBSample.forward c7est xv7 yv7 (fun _ => true) [1, 0, 2] := by
  have hmi : maskIdx (fun _ : Fin 3 => true) = [0, 1, 2] := rfl
  have hri : randomIndex (fun _ : Fin 3 => true) [1, 0, 2] = [1, 0, 2] := rfl
  have h1 : CLUBSample.forward c7est (fun i => xv7 (cyc3 i))
      (fun i => yv7 (cyc3 i)) (fun _ => true) [1, 0, 2] = some (7 / 3) := by
    unfold CLUBSample.forward
    rw [hmi, hri]
    simp [c7est_ml, xv7, yv7, cyc3, relu, meanO]
    norm_num
  have h2 : CLUBSample.forward c7est xv7 yv7 (fun _ => true) [1, 0, 2] =
      some 0 := by
    unfold CLUBSample.forward
    rw [hmi, hri]
    simp [c7est_ml, xv7, yv7, meanO]
  rw [h1, h2]
  simp

/-- Amended claim C7: the deterministic estimators (`CLUB.forward` and
`InfoNCE.forward`) are invariant under permuting all their input batches
identically; for the sampled estimators with the random draw held fixed the
bound value can change (see the counterexample), so they are excluded. -/
theorem c7_perm_invariant_amended {xd yd h nb xd2 yd2 h2 nb2 : ℕ}
    (c : CLUB xd yd h) (q : InfoNCE xd2 yd2 h2)
    (x : Fin nb → Fin xd → ℝ) (y : Fin nb → Fin yd → ℝ)
    (σ : Equiv.Perm (Fin nb))
    (x2 : Fin nb2 → Fin xd2 → ℝ) (y2 : Fin nb2 → Fin yd2 → ℝ)
    (τ : Equiv.Perm (Fin nb2)) :
    CLUB.forward c (fun i => x (σ i)) (fun i => y (σ i)) =
      CLUB.forward c x y ∧
    InfoNCE.forward q (fun i => x2 (τ i)) (fun i => y2 (τ i)) =
      InfoNCE.forward q x2 y2 := by
  constructor
  · unfold CLUB.forward
    have hin : ∀ (m : ℝ) (d : Fin yd),
        meanFin (fun j => (y (σ j) d - m) ^ 2) =
          meanFin (fun j => (y j d - m) ^ 2) := by
      intro m d
      unfold meanFin
      congr 1
      exact Fintype.sum_equiv σ _ _ (fun j => rfl)
    simp only [hin]
    unfold meanFin
    congr 1
    exact Fintype.sum_equiv σ _ _ (fun i => rfl)
  · unfold InfoNCE.forward
    have hmean : ∀ f g : Fin nb2 → ℝ, (∀ i, f i = g (τ i)) →
        meanFin f = meanFin g := by
      intro f g hfg
      unfold meanFin
      exact congrArg (fun s => s / (nb2 : ℝ)) (Fintype.sum_equiv τ f g hfg)
    have hl : ∀ w : Fin yd2 → ℝ,
        logsumexpFin (fun j => q.score (Fin.append (x2 (τ j)) w)) =
          logsumexpFin (fun j => q.score (Fin.append (x2 j) w)) := by
      intro w
      unfold logsumexpFin
      exact congrArg Real.log (Fintype.sum_equiv τ _ _ (fun j => rfl))
    simp only [hl]
    rw [hmean (fun i => q.score (Fin.append (x2 (τ i)) (y2 (τ i))))
        (fun i => q.score (Fin.append (x2 i) (y2 i))) (fun i => rfl),
      hmean (fun i => logsumexpFin fun j => q.score (Fin.append (x2 j) (y2 (τ i))))
        (fun i => logsumexpFin fun j => q.score (Fin.append (x2 j) (y2 i)))
        (fun i => rfl)]

/-! ## Claim C8 (theorem) -/

/-- Closed form for a two-term log-sum-exp: factor out the second
exponential. -/
theorem lse_pair_gen (u v : ℝ) :
    Real.log (Real.exp u + Real.exp v) =
      v + Real.log (1 + Real.exp (u - v)) := by
  have h : Real.exp u + Real.exp v = Real.exp v * (1 + Real.exp (u - v)) := by
    rw [mul_add, mul_one, ← Real.exp_add]
    have hv : v + (u - v) = u := by ring
    rw [hv]
    exact add_comm _ _
  rw [h, Real.log_mul (Real.exp_ne_zero v) (by positivity), Real.log_exp]

/-- Concrete `L1OutUB` instance with the identity-like mean network, for the
batch-size-2 half of claim C8. -/
def c8l2 : L1OutUB 1 1 2 := ⟨c7net, zeroMLP2 1 1 1⟩

/-- `c8l2` predicts mean `relu (v 0)` and log-variance `0` at every input
row. -/
theorem c8l2_ml (v : Fin 1 → ℝ) :
    c8l2.get_mu_logvar v = (fun _ => relu (v 0), fun _ => 0) := by
  show (c7net.run v, (zeroMLP2 1 1 1).runTanh v) = _
  rw [zeroMLP2_runTanh, c7net_run]

/-- Claim C8, refuted on both halves.  At batch size 1 `L1OutUB.forward`
raises no `InsufficientBatchSizeError`: the `np.log(0)` normalizer is
`-inf`, the negative term becomes `+inf` and the returned bound is `-inf`
(`⊥`), evaluated at `x = y = [[0]]`.  And at batch size 2 (inputs
`x = [[1],[2]]`, `y = [[0],[3]]`) the bound the code computes through the
`[N, N, 1]` diagonal-mask broadcast differs from the per-sample
leave-one-out log-sum-exp computation the claim describes. -/
theorem c8_l1out_code_divergence :
    L1OutUB.forwardE c8l1 zB zB = ⊥ ∧
    L1OutUB.forwardE c8l2 xv6 yv6 ≠
      L1OutUB.forwardClaimC8 c8l2 xv6 yv6 := by
  constructor
  · have hml : ∀ v : Fin 1 → ℝ, c8l1.get_mu_logvar v =
        (fun _ => (0 : ℝ), fun _ => (0 : ℝ)) := by
      intro v
      show ((zeroMLP2 1 1 1).run v, (zeroMLP2 1 1 1).runTanh v) = _
      rw [zeroMLP2_run, zeroMLP2_runTanh]
    unfold L1OutUB.forwardE
    simp only [hml, zB]
    have hlse : logsumexpFin (fun a : Fin 1 => if a = 0 then (-20 : ℝ) else 0)
        = -20 := by
      unfold logsumexpFin
      simp [Real.log_exp]
    have hnp : npLogE 0 = ⊥ := by simp [npLogE]
    have hneg : (((logsumexpFin fun a : Fin 1 =>
          if a = 0 then (-20 : ℝ) else 0) : ℝ) : EReal) - npLogE 0 = ⊤ := by
      rw [hlse, hnp, sub_eq_add_neg, EReal.neg_bot, EReal.coe_add_top]
    simp [hneg, EReal.sub_top]
  · have hcode : L1OutUB.forwardE c8l2 xv6 yv6 =
        (((3 : ℝ) / 4 - Real.log (1 + Real.exp (-20)) : ℝ) : EReal) := by
      unfold L1OutUB.forwardE
      simp only [c8l2_ml]
      norm_num [xv6, yv6, relu, max_def, npLogE, logsumexpFin,
        Fin.sum_univ_two, Fin.sum_univ_one, Real.exp_zero]
      rw [add_comm (Real.exp (-2 : ℝ)) (Real.exp (-22)),
        add_comm (Real.exp (-(1 / 2) : ℝ)) (Real.exp (-(41 / 2))),
        lse_pair_gen (-(41 / 2) : ℝ) (-(1 / 2)), lse_pair_gen (-22 : ℝ) (-2)]
      norm_num
      norm_cast
      push_cast
      ring
    have hclaim : L1OutUB.forwardClaimC8 c8l2 xv6 yv6 =
        (((3 : ℝ) / 2 - Real.log (1 + Real.exp (-37 / 2)) : ℝ) : EReal) := by
      unfold L1OutUB.forwardClaimC8
      simp only [c8l2_ml]
      norm_num [xv6, yv6, relu, max_def, npLogE, logsumexpFin,
        Fin.sum_univ_two, Fin.sum_univ_one, Real.exp_zero]
      rw [add_comm (Real.exp (-2 : ℝ)) (Real.exp (-(41 / 2))),
        lse_pair_gen (-(41 / 2) : ℝ) (-2)]
      norm_num
      norm_cast
      push_cast
      ring
    rw [hcode, hclaim]
    have hL : 0 < Real.log (1 + Real.exp (-20)) := by
      apply Real.log_pos
      linarith [Real.exp_pos (-20 : ℝ)]
    have hM : Real.log (1 + Real.exp (-37 / 2)) < 3 / 4 := by
      have h1 : (1 : ℝ) + Real.exp (-37 / 2) < 2 := by
        have h2 : Real.exp (-37 / 2 : ℝ) < 1 := by
          rw [Real.exp_lt_one_iff]
          norm_num
        linarith
      have h3 : Real.log (1 + Real.exp (-37 / 2)) < Real.log 2 :=
        Real.log_lt_log (by positivity) h1
      have h4 : Real.log 2 < 0.6931471808 := Real.log_two_lt_d9
      linarith
    have hne : (3 : ℝ) / 4 - Real.log (1 + Real.exp (-20)) ≠
        3 / 2 - Real.log (1 + Real.exp (-37 / 2)) := by
      intro h
      linarith
    exact fun hc => hne (by exact_mod_cast hc)

end

